import Mathlib

/-!
Verification development for the neo-controller LED strip controller.

Shallow embedding of the relevant parts of the source:
  * `src/controller/utils.py`  — color codec, index resolution, transitions
  * `src/controller/classes.py` — Changer / Animator / BufStore / Commander
  * `src/utils.py`             — the top-level index resolver variant
  * `src/controller/rgbutil.py` — the rgbutil transition variant
  * `src/common.py`            — absindex

Python integers are modelled as `ℤ`; Python `None` as `Option`; Python
exceptions as `Except PyErr`.  Python float expressions (`diff / steps`,
`round`, `int(...)`, the brightness fraction) are modelled exactly over
`ℚ`: every brightness value reachable in the code is a dyadic rational
`k / 64` which IEEE doubles represent exactly, and the interpolation
rounding only affects interior transition frames that no theorem below
inspects at float-sensitive points.
-/

deriving instance DecidableEq for Except

namespace NeoCtl

/-- A pixel value as the NeoPixel collaborator hands it back: a triple of
integer channels (red, green, blue). -/
abbrev RGB := ℤ × ℤ × ℤ

/-- Python `ColorType = int | tuple[int, int, int]`. -/
inductive PyColor where
  | int (v : ℤ)
  | tup (t : RGB)
deriving DecidableEq, Repr

/-- Python exceptions raised by the embedded code: `IndexError(x)`,
`ValueError`, `TypeError`. -/
inductive PyErr where
  | indexError (v : ℤ)
  | valueError
  | typeError
  | stopIteration
deriving DecidableEq, Repr

namespace Controller

/-- Embeds `as_tuple` of src/controller/utils.py: `r = value >> 16`,
`g = (value >> 8) & 0xff`, `b = value & 0xff`.  Python's arithmetic right
shift is floor division by a power of two and `& 0xff` on an `int` is
`mod 256` with nonnegative result; for these positive divisors `ℤ`'s
`/` and `%` (Euclidean) coincide with Python's floor semantics. -/
def as_tuple : PyColor → RGB
  | .tup t => t
  | .int v => (v / 65536, (v / 256) % 256, v % 256)

/-- Embeds `as_int` of src/controller/utils.py:
`((r & 0xff) << 16) + ((g & 0xff) << 8) + (b & 0xff)`. -/
def as_int : PyColor → ℤ
  | .int v => v
  | .tup (r, g, b) => (r % 256) * 65536 + (g % 256) * 256 + (b % 256)

end Controller

/-- Embeds `absindex` of src/common.py:
`i - (length * (i // length))`, with `ZeroDivisionError` re-raised as
`IndexError`.  Python `//` is floor division (`Int.fdiv`). -/
def absindex (i length : ℤ) : Except PyErr ℤ :=
  if length = 0 then .error (.indexError i)
  else .ok (i - length * (i.fdiv length))

namespace Controller

/-- Embeds `resolve_index_change` of src/controller/utils.py (lines 21-44).
Note this variant has no `min`/`max` branches: any verb other than
`clear`/`set`/`minus` falls into the relative branch. -/
def resolve_index_change (verb : String) (quantity : Option ℤ)
    (current : Option ℤ) (length : ℤ) (loop : Bool) :
    Except PyErr (Option ℤ) :=
  if verb = "clear" ∨ quantity = none then .ok none
  else
    let q := quantity.getD 0
    if verb = "set" then
      let q := if q < 0 then q + length else q
      if 0 ≤ q ∧ q < length then .ok (some q) else .error (.indexError q)
    else
      let q := if verb = "minus" then -q else q
      let vq : ℤ × ℤ :=
        match current with
        | some c => (c, q)
        | none => (0, if q > 0 then q - 1 else q)
      let value := vq.1 + vq.2
      if loop then (absindex value length).map some
      else .ok (some (max 0 (min value (length - 1))))

end Controller

namespace Utils

/-- Embeds `resolve_index_change` of src/utils.py (lines 3-30).  This
variant checks `min` and `max` first, before the `clear`/`set`/relative
logic shared with the controller variant. -/
def resolve_index_change (verb : String) (quantity : Option ℤ)
    (current : Option ℤ) (length : ℤ) (loop : Bool) :
    Except PyErr (Option ℤ) :=
  if verb = "min" then .ok (some 0)
  else if verb = "max" then .ok (some (length - 1))
  else if verb = "clear" ∨ quantity = none then .ok none
  else
    let q := quantity.getD 0
    if verb = "set" then
      let q := if q < 0 then q + length else q
      if 0 ≤ q ∧ q < length then .ok (some q) else .error (.indexError q)
    else
      let q := if verb = "minus" then -q else q
      let vq : ℤ × ℤ :=
        match current with
        | some c => (c, q)
        | none => (0, if q > 0 then q - 1 else q)
      let value := vq.1 + vq.2
      if loop then (absindex value length).map some
      else .ok (some (max 0 (min value (length - 1))))

end Utils

/-- C2: for every length L > 0 and every integer quantity q, verb `set`
returns q when 0 ≤ q < L, returns q + L when -L ≤ q < 0, and raises
IndexError (OutOfRange) when q lies outside [-L, L), for any current
selection and either wrap flag. -/
theorem resolve_set_characterization (L : ℤ) (hL : 0 < L) (q : ℤ)
    (current : Option ℤ) (w : Bool) :
    (0 ≤ q ∧ q < L →
      Controller.resolve_index_change "set" (some q) current L w = .ok (some q))
    ∧ (-L ≤ q ∧ q < 0 →
      Controller.resolve_index_change "set" (some q) current L w = .ok (some (q + L)))
    ∧ ((q < -L ∨ L ≤ q) →
      Controller.resolve_index_change "set" (some q) current L w =
        .error (.indexError (if q < 0 then q + L else q))) := by
  refine ⟨?_, ?_, ?_⟩ <;> intro h <;>
    simp only [Controller.resolve_index_change] <;>
    split_ifs with h1 h2 h3 <;> simp_all <;> omega

/-- Witness for C2 at L = 7, q = -2: resolves to 5. -/
theorem resolve_set_characterization_witness :
    (0 < (7 : ℤ)) ∧ (-(7 : ℤ) ≤ -2 ∧ (-2 : ℤ) < 0) ∧
    Controller.resolve_index_change "set" (some (-2)) none 7 true =
      .ok (some 5) := by
  refine ⟨by norm_num, ⟨by norm_num, by norm_num⟩, ?_⟩
  have h := (resolve_set_characterization 7 (by norm_num) (-2) none true).2.1
    ⟨by norm_num, by norm_num⟩
  simpa using h

/-- C3: with wrap enabled and length L > 0, verb `plus` with quantity 1
from no current selection resolves to 0 (the positive step is first
decremented by one), and verb `plus` with quantity k from a valid current
index c resolves to (c + k) mod L with floored modulo, which lies in
[0, L). -/
theorem resolve_plus_wrap (L : ℤ) (hL : 0 < L) :
    (Controller.resolve_index_change "plus" (some 1) none L true = .ok (some 0))
    ∧ (∀ c k : ℤ, 0 ≤ c → c < L →
        Controller.resolve_index_change "plus" (some k) (some c) L true =
          .ok (some ((c + k).fmod L))
        ∧ 0 ≤ (c + k).fmod L ∧ (c + k).fmod L < L) := by
  have hL0 : ¬ L = 0 := by omega
  constructor
  · simp [Controller.resolve_index_change, absindex, hL0, Int.zero_fdiv,
      Except.map]
  · intro c k hc hcL
    refine ⟨?_, ?_, ?_⟩
    · simp [Controller.resolve_index_change, absindex, hL0, Int.fmod_def,
        Except.map]
    · rw [Int.fmod_eq_emod _ (by omega)]
      exact Int.emod_nonneg _ (by omega)
    · rw [Int.fmod_eq_emod _ (by omega)]
      exact Int.emod_lt_of_pos _ hL

/-- Witness for C3 at L = 7, c = 5, k = 4: wraps to 2. -/
theorem resolve_plus_wrap_witness :
    (0 < (7 : ℤ)) ∧
    Controller.resolve_index_change "plus" (some 1) none 7 true = .ok (some 0) ∧
    Controller.resolve_index_change "plus" (some 4) (some 5) 7 true =
      .ok (some 2) := by
  have h := resolve_plus_wrap 7 (by norm_num)
  have h2 := (h.2 5 4 (by norm_num) (by norm_num)).1
  exact ⟨by norm_num, h.1, by simpa using h2⟩

/-- C4 counterexample: the controller-variant resolver
(src/controller/utils.py) has no `min` branch; `min` with quantity 5 from
no selection and length 10 falls into the relative branch and resolves to
4, not 0 as the claim states. -/
theorem resolve_min_counterexample :
    Controller.resolve_index_change "min" (some 5) none 10 true ≠
      .ok (some 0) ∧
    Controller.resolve_index_change "min" (some 5) none 10 true =
      .ok (some 4) := by
  constructor <;> decide

/-- C4 amended: for the top-level resolver of src/utils.py, for every
length L > 0, every current selection, every quantity and either wrap
setting, verb `min` resolves to 0 and verb `max` to length - 1; the
controller-variant resolver (src/controller/utils.py) has no such verbs
and treats them as relative steps. -/
theorem resolve_min_max (L : ℤ) (_hL : 0 < L) (quantity current : Option ℤ)
    (w : Bool) :
    Utils.resolve_index_change "min" quantity current L w = .ok (some 0)
    ∧ Utils.resolve_index_change "max" quantity current L w =
        .ok (some (L - 1)) := by
  constructor <;> simp [Utils.resolve_index_change]

/-- Witness for C4 amended at L = 7. -/
theorem resolve_min_max_witness :
    (0 < (7 : ℤ)) ∧
    Utils.resolve_index_change "min" (some 3) (some 2) 7 false = .ok (some 0) ∧
    Utils.resolve_index_change "max" (some 3) (some 2) 7 false =
      .ok (some 6) := by
  have h := resolve_min_max 7 (by norm_num) (some 3) (some 2) false
  exact ⟨by norm_num, h.1, by simpa using h.2⟩

/-- Python's built-in round applied to the exact rational value of the
float expression: round half to even. -/
def pyRound (x : ℚ) : ℤ :=
  let f := ⌊x⌋
  if x - f < 1 / 2 then f
  else if 1 / 2 < x - f then f + 1
  else if f % 2 = 0 then f else f + 1

namespace Controller

/-- Embeds `graduate` of src/controller/utils.py (lines 133-138) as the
list of all values the generator yields: `start`, then
`round(start + step * (diff / steps))` for `step` in `range(1, steps-1)`,
then `stop`.  The float expression is modelled exactly over `ℚ`. -/
def graduate (start stop : ℤ) (steps : ℤ) : List ℤ :=
  let diff := stop - start
  start ::
    (((List.range (steps - 2).toNat).map fun st : ℕ =>
        pyRound ((start : ℚ) + ((st : ℚ) + 1) * ((diff : ℚ) / (steps : ℚ))))
      ++ [stop])

/-- Three-way zip modelling `tuple(map(next, its))` over the three
per-channel graduate iterators in `transition`. -/
def zip3 (xs ys zs : List ℤ) : List RGB :=
  xs.zipWith Prod.mk (ys.zipWith Prod.mk zs)

/-- Embeds a full run of the generator `transition(a, b, steps)` of
src/controller/utils.py (lines 124-131): validate `steps`, convert the
endpoints with `as_tuple`, then pull `steps` frames from the three channel
graduates.  Python defers this whole body until the first `next()` on the
returned generator. -/
def transition (a b : PyColor) (steps : ℤ) : Except PyErr (List RGB) :=
  if steps < 1 then .error .valueError
  else
    let av := as_tuple a
    let bv := as_tuple b
    .ok (List.take steps.toNat
      (zip3 (graduate av.1 bv.1 steps) (graduate av.2.1 bv.2.1 steps)
        (graduate av.2.2 bv.2.2 steps)))

/-- Calling the generator function `transition(a, b, steps)` in Python
only captures the arguments; no statement of the body (in particular not
the `steps < 1` check) runs until the first `next()`.  Construction
therefore never raises. -/
def transition_construct (a b : PyColor) (steps : ℤ) :
    Except PyErr (PyColor × PyColor × ℤ) :=
  .ok (a, b, steps)

/-- The `while True` concatenation loop inside `transitions` of
src/controller/utils.py: emit `transition(a, b, steps)`, then advance the
keyframe window over the rest of the path. -/
def transitionsLoop (a b : PyColor) (rest : List PyColor) (steps : ℤ) :
    Except PyErr (List RGB) := do
  let frames ← transition a b steps
  match rest with
  | [] => pure frames
  | c :: rest' => do
      let more ← transitionsLoop b c rest' steps
      pure (frames ++ more)

/-- Embeds a full run of the generator `transitions(path, steps)` of
src/controller/utils.py (lines 110-122): with fewer than two keyframes the
body returns before emitting anything (no error); otherwise consecutive
transitions are concatenated. -/
def transitions (path : List PyColor) (steps : ℤ) : Except PyErr (List RGB) :=
  match path with
  | a :: b :: rest => transitionsLoop a b rest steps
  | _ => .ok []

end Controller

namespace Rgbutil

/-- Embeds `as_tuple` of src/controller/rgbutil.py (same byte shift and
mask arithmetic as the controller variant). -/
def as_tuple : PyColor → RGB
  | .tup t => t
  | .int v => (v / 65536, (v / 256) % 256, v % 256)

/-- Embeds a full run of the generator `transition(start, end, steps)` of
src/controller/rgbutil.py (lines 69-80): validate `steps`, compute the
per-channel increments `diff / steps`, then yield `start`, the rounded
intermediate samples for `step` in `range(1, steps-1)`, and `end`.  This
variant always emits its endpoint, so it yields two frames when steps = 1. -/
def transition (start stop : PyColor) (steps : ℤ) : Except PyErr (List RGB) :=
  if steps < 1 then .error .valueError
  else
    let s := as_tuple start
    let e := as_tuple stop
    let inc1 : ℚ := ((e.1 - s.1 : ℤ) : ℚ) / (steps : ℚ)
    let inc2 : ℚ := ((e.2.1 - s.2.1 : ℤ) : ℚ) / (steps : ℚ)
    let inc3 : ℚ := ((e.2.2 - s.2.2 : ℤ) : ℚ) / (steps : ℚ)
    .ok (s ::
      (((List.range (steps - 2).toNat).map fun st : ℕ =>
          (pyRound ((s.1 : ℚ) + inc1 * ((st : ℚ) + 1)),
           pyRound ((s.2.1 : ℚ) + inc2 * ((st : ℚ) + 1)),
           pyRound ((s.2.2 : ℚ) + inc3 * ((st : ℚ) + 1))))
        ++ [e]))

/-- The pairwise concatenation pass of `transitions` over the
tuple-converted path. -/
def transitionsPairs (steps : ℤ) : List RGB → Except PyErr (List RGB)
  | a :: b :: rest => do
      let frames ← transition (.tup a) (.tup b) steps
      let more ← transitionsPairs steps (b :: rest)
      pure (frames ++ more)
  | _ => .ok []

/-- Embeds a full run of the generator `transitions(path, steps)` of
src/controller/rgbutil.py (lines 50-67), for the default `loop=False`
(the loop mode only appends a wrap-around transition at the end): a path
of fewer than two keyframes raises ValueError, but — being a generator —
only when first pulled. -/
def transitions (path : List PyColor) (steps : ℤ) : Except PyErr (List RGB) :=
  if path.length < 2 then .error .valueError
  else transitionsPairs steps (path.map as_tuple)

end Rgbutil

theorem graduate_length (x y s : ℤ) (hs : 2 ≤ s) :
    (Controller.graduate x y s).length = s.toNat := by
  unfold Controller.graduate
  simp only [List.length_cons, List.length_append, List.length_map,
    List.length_range, List.length_nil]
  omega

theorem zip3_cons (x y z : ℤ) (xs ys zs : List ℤ) :
    Controller.zip3 (x :: xs) (y :: ys) (z :: zs) =
      (x, y, z) :: Controller.zip3 xs ys zs := rfl

theorem zip3_append (xs1 xs2 ys1 ys2 zs1 zs2 : List ℤ)
    (h1 : xs1.length = ys1.length) (h2 : ys1.length = zs1.length) :
    Controller.zip3 (xs1 ++ xs2) (ys1 ++ ys2) (zs1 ++ zs2) =
      Controller.zip3 xs1 ys1 zs1 ++ Controller.zip3 xs2 ys2 zs2 := by
  unfold Controller.zip3
  rw [List.zipWith_append _ ys1 ys2 zs1 zs2 h2,
    List.zipWith_append _ xs1 xs2 _ _]
  rw [List.length_zipWith]
  omega

theorem zip3_length (xs ys zs : List ℤ) :
    (Controller.zip3 xs ys zs).length =
      min xs.length (min ys.length zs.length) := by
  unfold Controller.zip3
  rw [List.length_zipWith, List.length_zipWith]

/-- C1 counterexample: `transition(0, 1, 1)` yields exactly one frame,
equal to color A = 0, so for S = 1 the last element of the sequence does
not equal B. -/
theorem transition_endpoint_counterexample :
    Controller.transition (.int 0) (.int 1) 1 = .ok [(0, 0, 0)] ∧
    Controller.as_tuple (.int 1) ≠ ((0 : ℤ), (0 : ℤ), (0 : ℤ)) := by
  constructor <;> decide

/-- C1 amended: for any two colors A ≠ B and any S ≥ 2, transition(A,B,S)
yields exactly S frames whose first element equals A and whose last equals
B; for S = 1 it yields the single frame A (the endpoint B is not
reached). -/
theorem transition_endpoints (a b : PyColor) (_hab : a ≠ b) (s : ℤ) :
    (2 ≤ s → ∃ frames, Controller.transition a b s = .ok frames ∧
      frames.length = s.toNat ∧
      frames.head? = some (Controller.as_tuple a) ∧
      frames.getLast? = some (Controller.as_tuple b)) ∧
    (s = 1 → Controller.transition a b 1 = .ok [Controller.as_tuple a]) := by
  constructor
  · intro hs
    set av := Controller.as_tuple a with hav
    set bv := Controller.as_tuple b with hbv
    have hns : ¬ s < 1 := by omega
    have hg : ∀ x y : ℤ, ∃ mids : List ℤ,
        Controller.graduate x y s = x :: (mids ++ [y]) ∧
        mids.length = (s - 2).toNat := by
      intro x y
      refine ⟨(List.range (s - 2).toNat).map fun st : ℕ =>
        pyRound ((x : ℚ) + ((st : ℚ) + 1) * (((y - x : ℤ) : ℚ) / (s : ℚ))),
        rfl, ?_⟩
      rw [List.length_map, List.length_range]
    obtain ⟨m1, he1, hl1⟩ := hg av.1 bv.1
    obtain ⟨m2, he2, hl2⟩ := hg av.2.1 bv.2.1
    obtain ⟨m3, he3, hl3⟩ := hg av.2.2 bv.2.2
    have hzip : Controller.zip3 (Controller.graduate av.1 bv.1 s)
        (Controller.graduate av.2.1 bv.2.1 s)
        (Controller.graduate av.2.2 bv.2.2 s) =
        (av.1, av.2.1, av.2.2) ::
          (Controller.zip3 m1 m2 m3 ++ [(bv.1, bv.2.1, bv.2.2)]) := by
      rw [he1, he2, he3, zip3_cons,
        zip3_append m1 [bv.1] m2 [bv.2.1] m3 [bv.2.2] (by omega) (by omega)]
      rfl
    have hmid : (Controller.zip3 m1 m2 m3).length = (s - 2).toNat := by
      rw [zip3_length]; omega
    have hlen : ((av.1, av.2.1, av.2.2) ::
        (Controller.zip3 m1 m2 m3 ++ [(bv.1, bv.2.1, bv.2.2)])).length
          = s.toNat := by
      simp only [List.length_cons, List.length_append, List.length_nil, hmid]
      omega
    refine ⟨(av.1, av.2.1, av.2.2) ::
      (Controller.zip3 m1 m2 m3 ++ [(bv.1, bv.2.1, bv.2.2)]), ?_, hlen, ?_, ?_⟩
    · simp only [Controller.transition, if_neg hns]
      rw [hzip, ← hlen, List.take_length]
    · simp [Prod.mk.eta]
    · rw [← List.cons_append, List.getLast?_concat]
  · intro hs1
    simp only [Controller.transition]
    norm_num
    have h1 : ((1 : ℤ) - 2).toNat = 0 := by decide
    simp [Controller.graduate, Controller.zip3, h1, Prod.mk.eta]

/-- Witness for C1 amended at A = 0, B = 1, S = 3. -/
theorem transition_endpoints_witness :
    (PyColor.int 0 ≠ PyColor.int 1) ∧ (2 ≤ (3 : ℤ)) ∧
    (∃ frames, Controller.transition (.int 0) (.int 1) 3 = .ok frames ∧
      frames.length = (3 : ℤ).toNat ∧
      frames.head? = some (Controller.as_tuple (.int 0)) ∧
      frames.getLast? = some (Controller.as_tuple (.int 1))) := by
  exact ⟨by decide, by norm_num,
    (transition_endpoints (.int 0) (.int 1) (by decide) 3).1 (by norm_num)⟩

/-- C5 counterexample: a transitions path holding a single keyframe yields
the empty sequence and no InvalidArgument at any point (src/controller/
utils.py lines 110-122), and the Python generator call transition(0, 1, 0)
raises nothing at construction time even though the step count is < 1. -/
theorem transition_eager_counterexample :
    Controller.transitions [.int 5] 0 = .ok [] ∧
    Controller.transition_construct (.int 0) (.int 1) 0 =
      .ok (.int 0, .int 1, 0) := by
  constructor <;> rfl

/-- C5 amended: constructing a transition never fails, because Python
generator bodies are deferred; a step count S < 1 raises InvalidArgument
(ValueError) only when the first frame is pulled; a path with fewer than
two keyframes is not an error in controller/utils.transitions — it yields
an empty sequence — while the rgbutil transitions variant raises
InvalidArgument for it, again only on first pull. -/
theorem transition_validation (a b : PyColor) (path : List PyColor) (s : ℤ) :
    (Controller.transition_construct a b s = .ok (a, b, s)) ∧
    (s < 1 → Controller.transition a b s = .error .valueError) ∧
    (path.length < 2 → Controller.transitions path s = .ok []) ∧
    (path.length < 2 → Rgbutil.transitions path s = .error .valueError) := by
  refine ⟨rfl, ?_, ?_, ?_⟩
  · intro hs
    simp [Controller.transition, hs]
  · intro hp
    match path with
    | [] => rfl
    | [x] => rfl
    | x :: y :: rest =>
        simp only [List.length_cons] at hp
        omega
  · intro hp
    simp [Rgbutil.transitions, hp]

/-- Witness for C5 amended at a = 0, b = 1, path = [5], s = 0. -/
theorem transition_validation_witness :
    Controller.transition (.int 0) (.int 1) 0 = .error .valueError ∧
    Controller.transitions [.int 5] 0 = .ok [] ∧
    Rgbutil.transitions [.int 5] 0 = .error .valueError := by
  have h := transition_validation (.int 0) (.int 1) [.int 5] 0
  exact ⟨h.2.1 (by norm_num), h.2.2.1 (by norm_num), h.2.2.2 (by norm_num)⟩

/-- Python int() truncation toward zero, applied to the exact rational
value of the float expression.  Int division on `num / den` truncates
toward zero. -/
def pyTrunc (x : ℚ) : ℤ := x.num / (x.den : ℤ)

namespace Controller

namespace Settings

/-- Embeds brightness_scale of src/controller/defaults.py (0x40). -/
def brightness_scale : ℤ := 64

/-- Embeds initial_brightness of src/controller/defaults.py
(brightness_scale // 5 = 12). -/
def initial_brightness : ℤ := 12

/-- Embeds initial_color of src/controller/defaults.py (0xffffff). -/
def initial_color : ℤ := 0xffffff

/-- Embeds speeds of src/controller/defaults.py: range(2, 0x82, 2), the
64 even interval values 2, 4, ..., 128. -/
def speeds : List ℤ := (List.range 64).map fun i : ℕ => 2 * (i : ℤ) + 2

end Settings

/-- The second correction pass inside `unwheel`: add `correct` to the
first channel that is nonzero and stays within byte range, then stop
(the `for ... break` loop). -/
def unwheelCorrect (rgb : List ℤ) (correct : ℤ) : List ℤ :=
  match rgb.findIdx? (fun c => decide (c ≠ 0 ∧ 0 ≤ c + correct ∧ c + correct ≤ 255)) with
  | some i => rgb.set i (rgb.getD i 0 + correct)
  | none => rgb

/-- Embeds `unwheel` of src/controller/utils.py (lines 63-86), the
reverse hue-wheel mapping: zero out the smallest channel if all are
nonzero, rescale so the channels sum to 0xff (float products modelled
exactly over ℚ with Python int() truncation), then read the wheel
position off the dominant channels. -/
def unwheel (value : PyColor) : ℤ :=
  let t := as_tuple value
  let rgb0 := [t.1, t.2.1, t.2.2]
  let rgb1 :=
    if rgb0.all (fun c => decide (c ≠ 0))
    then rgb0.set (rgb0.indexOf ((rgb0.min?).getD 0)) 0
    else rgb0
  let correct1 := 255 - rgb1.sum
  let rgb2 :=
    if correct1 ≠ 0 then
      let stage := rgb1.map fun c : ℤ =>
        c + pyTrunc ((correct1 : ℚ) * ((c : ℚ) / 255))
      let correct2 := 255 - stage.sum
      if correct2 ≠ 0 then unwheelCorrect stage correct2 else stage
    else rgb1
  if rgb2.sum ≠ 255 then 0
  else
    let r := rgb2.getD 0 0
    let g := rgb2.getD 1 0
    let b := rgb2.getD 2 0
    if b = 0 then g.fdiv 3
    else if r = 0 then b.fdiv 3 + 85
    else r.fdiv 3 + 170

/-- Modelled from the spec: the forward hue-wheel mapping
(`rainbowio.colorwheel`), an external collaborator whose code is not under
src/.  Spec section 2 lists the hue-wheel forward/reverse mapping as part
of the ColorCodec; `unwheel` above is its reverse, and this is the
standard Adafruit wheel it inverts: positions 0-84 fade red to green,
85-169 green to blue, 170-255 blue to red, as a packed 0xRRGGBB int. -/
def colorwheel (pos : ℤ) : ℤ :=
  let p := pos % 256
  if p < 85 then (255 - p * 3) * 65536 + (p * 3) * 256
  else if p < 170 then (255 - (p - 85) * 3) * 256 + ((p - 85) * 3)
  else ((p - 170) * 3) * 65536 + (255 - (p - 170) * 3)

/-- The mutable state a `Changer` instance operates on: the NeoPixel
buffer (tuples as the strip hands them back), the brightness fraction,
and the `selected` dict with its `pixel` and `hue` keys. -/
structure ChangerState where
  pixels : List RGB
  brightness : ℚ
  selected_pixel : Option ℤ
  selected_hue : Option ℤ
deriving DecidableEq, Repr

/-- Reading `pixels[p]` from the NeoPixel buffer. -/
def pixGet (buf : List RGB) (i : ℤ) : RGB := buf.getD i.toNat (0, 0, 0)

/-- Writing `pixels[p] = v` to the NeoPixel buffer (the collaborator
stores the channel triple). -/
def pixSet (buf : List RGB) (i : ℤ) (v : RGB) : List RGB := buf.set i.toNat v

/-- Embeds `Changer.prange` of src/controller/classes.py: all pixel
indices when no pixel is selected, else the singleton selection. -/
def prange (st : ChangerState) : List ℤ :=
  match st.selected_pixel with
  | none => (List.range st.pixels.length).map Int.ofNat
  | some i => [i]

/-- Reading channel `b` of a pixel tuple (`list(self.pixels[p])[b]`). -/
def chanGet : RGB → ℕ → ℤ
  | (r, _, _), 0 => r
  | (_, g, _), 1 => g
  | (_, _, b), 2 => b
  | _, _ => 0

/-- Writing channel `b` of a pixel tuple (`values[b] = value`). -/
def chanSet : RGB → ℕ → ℤ → RGB
  | (_, g, b), 0, v => (v, g, b)
  | (r, _, b), 1, v => (r, v, b)
  | (r, g, _), 2, v => (r, g, v)
  | t, _, _ => t

namespace Changer

/-- The diff-write loop of `Changer.buffer`: for each incoming value (the
command tuple is cut off at the strip length by the IndexError break),
compare `as_int(pixels[p])` with the value and write it when they differ,
latching the change flag. -/
def bufferWrite : List ℤ → ℤ → List RGB → Bool → List RGB × Bool
  | [], _, pixels, ch => (pixels, ch)
  | v :: vs, p, pixels, ch =>
      let cur := as_int (.tup (pixGet pixels p))
      if cur ≠ v then
        bufferWrite vs (p + 1) (pixSet pixels p (as_tuple (.int v))) true
      else bufferWrite vs (p + 1) pixels ch

/-- Embeds `Changer.buffer` of src/controller/classes.py (lines 101-116):
only verb `set` is accepted; values are written where they differ and one
flush is issued iff any pixel was written. -/
def buffer (verb : String) (buf : List ℤ) (st : ChangerState) :
    Except PyErr (ChangerState × Bool) :=
  if verb ≠ "set" then .error .valueError
  else
    let res := bufferWrite (buf.take st.pixels.length) 0 st.pixels false
    .ok ({ st with pixels := res.1 }, res.2)

/-- The diff-write loop of `Changer.color` over the selected pixel
range. -/
def colorWrite (value : ℤ) : List ℤ → List RGB → Bool → List RGB × Bool
  | [], pixels, ch => (pixels, ch)
  | p :: ps, pixels, ch =>
      let cur := as_int (.tup (pixGet pixels p))
      if cur ≠ value then
        colorWrite value ps (pixSet pixels p (as_tuple (.int value))) true
      else colorWrite value ps pixels ch

/-- Embeds `Changer.color` of src/controller/classes.py (lines 118-133):
verb `set` clamps the packed value into [0, 0xffffff], verb `copy` reads
the packed value of the pixel at the (wrapped) index, any other verb
raises ValueError; the selected range is then diff-written and flushed
iff something changed.  Note: this operation does not touch
`selected_hue`. -/
def colorValue (verb : String) (value : PyColor) (st : ChangerState) :
    Except PyErr ℤ :=
  if verb = "set" then .ok (min 16777215 (max 0 (as_int value)))
  else if verb = "copy" then
    match value with
    | .int i =>
        match absindex i (st.pixels.length : ℤ) with
        | .error e => .error e
        | .ok idx => .ok (as_int (.tup (pixGet st.pixels idx)))
    | .tup _ => .error .typeError
  else .error .valueError

def color (verb : String) (value : PyColor) (st : ChangerState) :
    Except PyErr (ChangerState × Bool) :=
  match colorValue verb value st with
  | .error e => .error e
  | .ok v =>
      let res := colorWrite v (prange st) st.pixels false
      .ok ({ st with pixels := res.1 }, res.2)

/-- Embeds `Changer.pixel` of src/controller/classes.py (lines 135-138):
resolve the new selection with wrap enabled and update the selected dict,
always clearing `hue`; no pixel is written and no flush is issued. -/
def pixel (verb : String) (quantity : Option ℤ) (st : ChangerState) :
    Except PyErr (ChangerState × Bool) :=
  match resolve_index_change verb quantity st.selected_pixel
      (st.pixels.length : ℤ) true with
  | .error e => .error e
  | .ok value =>
      .ok ({ st with selected_pixel := value, selected_hue := none }, false)

/-- Embeds `Changer.hue` of src/controller/classes.py (lines 140-152):
derive the current hue (unwheel of the first ranged pixel when no hue is
selected and a quantity is given), resolve against the 0x100 wheel with
wrap, write the wheel color to the whole range, and call `show()`
unconditionally. -/
def hueCurrent (quantity : Option ℤ) (st : ChangerState) :
    Except PyErr (Option ℤ) :=
  if st.selected_hue = none ∧ quantity ≠ none then
    match (prange st).head? with
    | some p => .ok (some (unwheel (.tup (pixGet st.pixels p))))
    | none => .error .stopIteration
  else .ok st.selected_hue

def hue (verb : String) (quantity : Option ℤ) (st : ChangerState) :
    Except PyErr (ChangerState × Bool) :=
  let pr := prange st
  match hueCurrent quantity st with
  | .error e => .error e
  | .ok current =>
      match resolve_index_change verb quantity current 256 true with
      | .error e => .error e
      | .ok value =>
          let huec := as_tuple (.int (colorwheel (value.getD 0)))
          .ok ({ st with
            pixels := pr.foldl (fun acc p => pixSet acc p huec) st.pixels,
            selected_hue := value }, true)

/-- Embeds `Changer.brightness` of src/controller/classes.py (lines
154-168): compute the new scale-unit value per verb (TypeError when a
needed quantity is missing, as Python arithmetic on None raises), clamp
to [0, brightness_scale], divide down to the fraction, and flush only
when the fraction actually changes. -/
def brightnessValue (verb : String) (quantity : Option ℤ)
    (st : ChangerState) : Except PyErr ℤ :=
  if verb = "clear" then .ok Settings.initial_brightness
  else
    match quantity with
    | none => .error .typeError
    | some q =>
        if verb = "set" then .ok q
        else if verb = "minus" then
          .ok (⌈st.brightness * (Settings.brightness_scale : ℚ)⌉ - q)
        else
          .ok (pyTrunc (st.brightness * (Settings.brightness_scale : ℚ)) + q)

def brightness (verb : String) (quantity : Option ℤ) (st : ChangerState) :
    Except PyErr (ChangerState × Bool) :=
  match brightnessValue verb quantity st with
  | .error e => .error e
  | .ok value =>
      let v : ℚ := ((max 0 (min Settings.brightness_scale value) : ℤ) : ℚ) /
        ((Settings.brightness_scale : ℤ) : ℚ)
      if v ≠ st.brightness then .ok ({ st with brightness := v }, true)
      else .ok (st, false)

/-- The per-channel target value inside the `shade` wrapper: `initial[b]`
for clear or a missing quantity, the quantity itself for set, else the
relative adjustment, clamped to [0, 0xff]. -/
def shadeVal (verb : String) (q : Option ℤ) (initial values : RGB)
    (b : ℕ) : ℤ :=
  let value :=
    if verb = "clear" ∨ q = none then chanGet initial b
    else if verb = "set" then q.getD 0
    else chanGet values b + q.getD 0
  max 0 (min 255 value)

/-- The per-pixel channel loop of the `shade` wrapper: for each channel
index, compute the clamped target value, latch the per-pixel change
flag, and store the channel. -/
def shadePixel (verb : String) (q : Option ℤ) (initial : RGB) :
    List ℕ → RGB → Bool → RGB × Bool
  | [], values, pchange => (values, pchange)
  | b :: bs, values, pchange =>
      let value := shadeVal verb q initial values b
      shadePixel verb q initial bs (chanSet values b value)
        (pchange || decide (chanGet values b ≠ value))

/-- The pixel loop of the `shade` wrapper over the selected range: write
back a pixel only when one of its channels changed, latching the overall
change flag. -/
def shadeWrite (verb : String) (q : Option ℤ) (initial : RGB)
    (indexes : List ℕ) : List ℤ → List RGB → Bool → List RGB × Bool
  | [], pixels, ch => (pixels, ch)
  | p :: ps, pixels, ch =>
      let res := shadePixel verb q initial indexes (pixGet pixels p) false
      if res.2 then
        shadeWrite verb q initial indexes ps (pixSet pixels p res.1) true
      else shadeWrite verb q initial indexes ps pixels ch

/-- Embeds the `shade` closure of src/controller/classes.py (lines
170-197), shared by red/green/blue/white: negate the quantity for verb
`minus`, diff-write the channels over the selected range, flush iff any
pixel changed, and clear `selected_hue`.  This never raises. -/
def shade (indexes : List ℕ) (verb : String) (quantity : Option ℤ)
    (st : ChangerState) : ChangerState × Bool :=
  let q :=
    match quantity with
    | some qq => some (if verb = "minus" then -qq else qq)
    | none => none
  let initial := as_tuple (.int Settings.initial_color)
  let res := shadeWrite verb q initial indexes (prange st) st.pixels false
  ({ st with pixels := res.1, selected_hue := none }, res.2)

/-- Embeds `Changer.red = shade('red', (0,))`. -/
def red := shade [0]

/-- Embeds `Changer.green = shade('green', (1,))`. -/
def green := shade [1]

/-- Embeds `Changer.blue = shade('blue', (2,))`. -/
def blue := shade [2]

/-- Embeds `Changer.white = shade('white', range(3))`. -/
def white := shade [0, 1, 2]

end Changer

end Controller

/-- The NeoPixel strip only ever hands back byte triples: every channel
of every pixel lies in [0, 0xff].  This is the hardware invariant of the
live buffer. -/
def canonicalBuf (pixels : List RGB) : Bool :=
  pixels.all fun t => decide (0 ≤ t.1 ∧ t.1 ≤ 255 ∧ 0 ≤ t.2.1 ∧
    t.2.1 ≤ 255 ∧ 0 ≤ t.2.2 ∧ t.2.2 ≤ 255)

/-- A selected pixel, when present, is a valid index into the buffer (it
comes out of `resolve_index_change` with wrap over the strip length). -/
def selValid (st : Controller.ChangerState) : Bool :=
  match st.selected_pixel with
  | none => true
  | some i => decide (0 ≤ i ∧ i.toNat < st.pixels.length)

theorem canonicalBuf_mem {pixels : List RGB} (hc : canonicalBuf pixels = true)
    {t : RGB} (ht : t ∈ pixels) :
    0 ≤ t.1 ∧ t.1 ≤ 255 ∧ 0 ≤ t.2.1 ∧ t.2.1 ≤ 255 ∧ 0 ≤ t.2.2 ∧
      t.2.2 ≤ 255 := by
  have := List.all_eq_true.mp hc t ht
  exact of_decide_eq_true this

theorem pixGet_canonical {pixels : List RGB} (hc : canonicalBuf pixels = true)
    (i : ℤ) :
    0 ≤ (Controller.pixGet pixels i).1 ∧ (Controller.pixGet pixels i).1 ≤ 255 ∧
    0 ≤ (Controller.pixGet pixels i).2.1 ∧ (Controller.pixGet pixels i).2.1 ≤ 255 ∧
    0 ≤ (Controller.pixGet pixels i).2.2 ∧ (Controller.pixGet pixels i).2.2 ≤ 255 := by
  unfold Controller.pixGet
  by_cases h : i.toNat < pixels.length
  · rw [List.getD_eq_getElem?_getD, List.getElem?_eq_getElem h]
    exact canonicalBuf_mem hc (List.getElem_mem h)
  · rw [List.getD_eq_getElem?_getD, List.getElem?_eq_none (by omega)]
    norm_num

theorem pixGet_pixSet_self (buf : List RGB) (p : ℤ) (v : RGB)
    (hlen : p.toNat < buf.length) :
    Controller.pixGet (Controller.pixSet buf p v) p = v := by
  unfold Controller.pixGet Controller.pixSet
  rw [List.getD_eq_getElem?_getD, List.getElem?_set_self (by omega)]
  rfl

theorem pixGet_pixSet_ne (buf : List RGB) (p q : ℤ) (v : RGB)
    (hp : 0 ≤ p) (hq : 0 ≤ q) (hne : q ≠ p) :
    Controller.pixGet (Controller.pixSet buf p v) q =
      Controller.pixGet buf q := by
  unfold Controller.pixGet Controller.pixSet
  rw [List.getD_eq_getElem?_getD, List.getD_eq_getElem?_getD,
    List.getElem?_set_ne (by omega)]

theorem pixSet_length (buf : List RGB) (p : ℤ) (v : RGB) :
    (Controller.pixSet buf p v).length = buf.length := by
  unfold Controller.pixSet
  exact List.length_set buf p.toNat v

/-- Packing the tuple of an in-range packed int recovers the int: the
`as_tuple`/`as_int` round trip, lemma for 0 ≤ v < 2^24. -/
theorem as_int_as_tuple_int (v : ℤ) (h0 : 0 ≤ v) (h1 : v < 16777216) :
    Controller.as_int (.tup (Controller.as_tuple (.int v))) = v := by
  show (v / 65536) % 256 * 65536 +
    ((v / 256) % 256) % 256 * 256 + (v % 256) % 256 = v
  omega

/-- If a canonical (byte-ranged) tuple equals `as_tuple v` then `v` was
in 24-bit range and packs back to itself. -/
theorem canonical_as_tuple_eq (t : RGB)
    (hc : 0 ≤ t.1 ∧ t.1 ≤ 255 ∧ 0 ≤ t.2.1 ∧ t.2.1 ≤ 255 ∧ 0 ≤ t.2.2 ∧
      t.2.2 ≤ 255)
    (v : ℤ) (h : t = Controller.as_tuple (.int v)) :
    Controller.as_int (.tup t) = v := by
  have hrange : 0 ≤ v ∧ v < 16777216 := by
    have h1 : t.1 = v / 65536 := by rw [h]; rfl
    rw [h1] at hc
    omega
  rw [h]
  exact as_int_as_tuple_int v hrange.1 hrange.2

/-- The packed value of a canonical pixel lies in 24-bit range. -/
theorem as_int_canonical_range (t : RGB) :
    0 ≤ Controller.as_int (.tup t) ∧
      Controller.as_int (.tup t) < 16777216 := by
  rcases t with ⟨r, g, b⟩
  show 0 ≤ r % 256 * 65536 + g % 256 * 256 + b % 256 ∧
    r % 256 * 65536 + g % 256 * 256 + b % 256 < 16777216
  omega

theorem chanSet_of_get_eq (t : RGB) (b : ℕ) (v : ℤ)
    (h : Controller.chanGet t b = v) : Controller.chanSet t b v = t := by
  subst h
  rcases t with ⟨r, g, bl⟩
  rcases b with _ | _ | _ | b <;> rfl

theorem chanGet_chanSet_self (t : RGB) (b : ℕ) (hb : b < 3) (v : ℤ) :
    Controller.chanGet (Controller.chanSet t b v) b = v := by
  rcases t with ⟨r, g, bl⟩
  rcases b with _ | _ | _ | b <;> first | rfl | omega

theorem chanGet_chanSet_ne (t : RGB) (b b' : ℕ) (v : ℤ) (hne : b ≠ b') :
    Controller.chanGet (Controller.chanSet t b' v) b =
      Controller.chanGet t b := by
  rcases t with ⟨r, g, bl⟩
  rcases b with _ | _ | _ | b <;> rcases b' with _ | _ | _ | b' <;>
    simp_all [Controller.chanGet, Controller.chanSet]

namespace Controller

namespace Changer

theorem colorWrite_flag_true (v : ℤ) : ∀ (ps : List ℤ) (pixels : List RGB),
    (colorWrite v ps pixels true).2 = true := by
  intro ps
  induction ps with
  | nil => intro pixels; rfl
  | cons p ps ih =>
      intro pixels
      simp only [colorWrite]
      split_ifs with h
      · exact ih _
      · exact ih _

theorem colorWrite_false_eq (v : ℤ) : ∀ (ps : List ℤ) pixels ch,
    (colorWrite v ps pixels ch).2 = false →
    (colorWrite v ps pixels ch).1 = pixels ∧ ch = false := by
  intro ps
  induction ps with
  | nil => intro pixels ch h; exact ⟨rfl, h⟩
  | cons p ps ih =>
      intro pixels ch h
      simp only [colorWrite] at h ⊢
      split_ifs at h ⊢ with hcur
      · rw [colorWrite_flag_true] at h
        cases h
      · exact ih _ _ h

theorem colorWrite_untouched (v : ℤ) : ∀ (ps : List ℤ) pixels ch (q : ℤ),
    0 ≤ q → (∀ p ∈ ps, 0 ≤ p) → q ∉ ps →
    pixGet ((colorWrite v ps pixels ch).1) q = pixGet pixels q := by
  intro ps
  induction ps with
  | nil => intro pixels ch q _ _ _; rfl
  | cons p ps ih =>
      intro pixels ch q hq hpos hnotin
      simp only [colorWrite]
      split_ifs with hcur
      · rw [ih _ _ q hq (fun x hx => hpos x (List.mem_cons_of_mem p hx))
          (fun hx => hnotin (List.mem_cons_of_mem p hx))]
        exact pixGet_pixSet_ne pixels p q _ (hpos p (List.mem_cons_self p ps)) hq
          (fun hx => hnotin (hx ▸ List.mem_cons_self p ps))
      · exact ih _ _ q hq (fun x hx => hpos x (List.mem_cons_of_mem p hx))
          (fun hx => hnotin (List.mem_cons_of_mem p hx))

theorem colorWrite_changed (v : ℤ) (hv0 : 0 ≤ v) (hv1 : v < 16777216) :
    ∀ (ps : List ℤ) pixels, canonicalBuf pixels = true →
    (∀ p ∈ ps, 0 ≤ p ∧ p.toNat < pixels.length) → ps.Nodup →
    (colorWrite v ps pixels false).2 = true →
    (colorWrite v ps pixels false).1 ≠ pixels := by
  intro ps
  induction ps with
  | nil => intro pixels _ _ _ h; cases h
  | cons p ps ih =>
      intro pixels hc hval hnd hfl
      simp only [colorWrite] at hfl ⊢
      split_ifs at hfl ⊢ with hcur
      · intro heq
        have hp := hval p (List.mem_cons_self p ps)
        have hnotin : p ∉ ps := (List.nodup_cons.mp hnd).1
        have hqp : pixGet ((colorWrite v ps
            (pixSet pixels p (as_tuple (.int v))) true).1) p =
            as_tuple (.int v) := by
          rw [colorWrite_untouched v ps _ true p hp.1
            (fun x hx => (hval x (List.mem_cons_of_mem p hx)).1) hnotin]
          exact pixGet_pixSet_self _ p _ hp.2
        rw [heq] at hqp
        exact hcur (by rw [hqp]; exact as_int_as_tuple_int v hv0 hv1)
      · exact ih pixels hc (fun x hx => hval x (List.mem_cons_of_mem p hx))
          (List.nodup_cons.mp hnd).2 hfl

theorem colorWrite_iff (v : ℤ) (hv0 : 0 ≤ v) (hv1 : v < 16777216)
    (ps : List ℤ) (pixels : List RGB) (hc : canonicalBuf pixels = true)
    (hval : ∀ p ∈ ps, 0 ≤ p ∧ p.toNat < pixels.length) (hnd : ps.Nodup) :
    ((colorWrite v ps pixels false).2 = true ↔
      (colorWrite v ps pixels false).1 ≠ pixels) := by
  constructor
  · exact colorWrite_changed v hv0 hv1 ps pixels hc hval hnd
  · intro hne
    by_contra hfl
    exact hne (colorWrite_false_eq v ps pixels false
      (by revert hfl; cases (colorWrite v ps pixels false).2 <;> simp)).1

theorem bufferWrite_flag_true : ∀ (vs : List ℤ) (p : ℤ) (pixels : List RGB),
    (bufferWrite vs p pixels true).2 = true := by
  intro vs
  induction vs with
  | nil => intro p pixels; rfl
  | cons v vs ih =>
      intro p pixels
      simp only [bufferWrite]
      split_ifs with h
      · exact ih _ _
      · exact ih _ _

theorem bufferWrite_false_eq : ∀ (vs : List ℤ) (p : ℤ) pixels ch,
    (bufferWrite vs p pixels ch).2 = false →
    (bufferWrite vs p pixels ch).1 = pixels ∧ ch = false := by
  intro vs
  induction vs with
  | nil => intro p pixels ch h; exact ⟨rfl, h⟩
  | cons v vs ih =>
      intro p pixels ch h
      simp only [bufferWrite] at h ⊢
      split_ifs at h ⊢ with hcur
      · rw [bufferWrite_flag_true] at h
        cases h
      · exact ih _ _ _ h

theorem bufferWrite_untouched : ∀ (vs : List ℤ) (p : ℤ) pixels ch (q : ℤ),
    0 ≤ q → q < p →
    pixGet ((bufferWrite vs p pixels ch).1) q = pixGet pixels q := by
  intro vs
  induction vs with
  | nil => intro p pixels ch q _ _; rfl
  | cons v vs ih =>
      intro p pixels ch q hq hqp
      simp only [bufferWrite]
      split_ifs with hcur
      · rw [ih (p + 1) _ true q hq (by omega)]
        exact pixGet_pixSet_ne pixels p q _ (by omega) hq (by omega)
      · exact ih (p + 1) _ ch q hq (by omega)

theorem bufferWrite_changed : ∀ (vs : List ℤ) (p : ℤ) pixels,
    canonicalBuf pixels = true → 0 ≤ p →
    p + vs.length ≤ (pixels.length : ℤ) →
    (bufferWrite vs p pixels false).2 = true →
    (bufferWrite vs p pixels false).1 ≠ pixels := by
  intro vs
  induction vs with
  | nil => intro p pixels _ _ _ h; cases h
  | cons v vs ih =>
      intro p pixels hc hp hlen hfl
      simp only [bufferWrite] at hfl ⊢
      split_ifs at hfl ⊢ with hcur
      · intro heq
        have hplt : p.toNat < pixels.length := by
          simp only [List.length_cons] at hlen
          omega
        have hqp : pixGet ((bufferWrite vs (p + 1)
            (pixSet pixels p (as_tuple (.int v))) true).1) p =
            as_tuple (.int v) := by
          rw [bufferWrite_untouched vs (p + 1) _ true p hp (by omega)]
          exact pixGet_pixSet_self _ p _ hplt
        rw [heq] at hqp
        have hmem : pixGet pixels p ∈ pixels := by
          unfold pixGet
          rw [List.getD_eq_getElem?_getD, List.getElem?_eq_getElem hplt]
          exact List.getElem_mem hplt
        exact hcur (canonical_as_tuple_eq _ (canonicalBuf_mem hc hmem) v hqp)
      · refine ih (p + 1) pixels hc (by omega) ?_ hfl
        simp only [List.length_cons] at hlen
        omega

theorem shadePixel_flag_true (verb : String) (q : Option ℤ) (initial : RGB) :
    ∀ (bs : List ℕ) (values : RGB),
    (shadePixel verb q initial bs values true).2 = true := by
  intro bs
  induction bs with
  | nil => intro values; rfl
  | cons b bs ih => intro values; simp only [shadePixel, Bool.true_or]; exact ih _

theorem shadePixel_false_eq (verb : String) (q : Option ℤ) (initial : RGB) :
    ∀ (bs : List ℕ) (values : RGB) pch,
    (shadePixel verb q initial bs values pch).2 = false →
    (shadePixel verb q initial bs values pch).1 = values ∧ pch = false := by
  intro bs
  induction bs with
  | nil => intro values pch h; exact ⟨rfl, h⟩
  | cons b bs ih =>
      intro values pch h
      simp only [shadePixel] at h ⊢
      obtain ⟨h1, h2⟩ := ih _ _ h
      obtain ⟨hpch, hdec⟩ := Bool.or_eq_false_iff.mp h2
      have hval : chanGet values b = shadeVal verb q initial values b :=
        not_not.mp (of_decide_eq_false hdec)
      exact ⟨by rw [h1, chanSet_of_get_eq _ _ _ hval], hpch⟩

theorem shadePixel_untouched (verb : String) (q : Option ℤ) (initial : RGB) :
    ∀ (bs : List ℕ) (values : RGB) pch (b : ℕ), b ∉ bs →
    chanGet ((shadePixel verb q initial bs values pch).1) b =
      chanGet values b := by
  intro bs
  induction bs with
  | nil => intro values pch b _; rfl
  | cons b' bs ih =>
      intro values pch b hnotin
      simp only [shadePixel]
      rw [ih _ _ b (fun hx => hnotin (List.mem_cons_of_mem b' hx))]
      exact chanGet_chanSet_ne values b b' _
        (fun hx => hnotin (hx ▸ List.mem_cons_self b' bs))

theorem shadePixel_changed (verb : String) (q : Option ℤ) (initial : RGB) :
    ∀ (bs : List ℕ) (values : RGB), bs.Nodup → (∀ b ∈ bs, b < 3) →
    (shadePixel verb q initial bs values false).2 = true →
    (shadePixel verb q initial bs values false).1 ≠ values := by
  intro bs
  induction bs with
  | nil => intro values _ _ h; cases h
  | cons b bs ih =>
      intro values hnd hlt hfl
      simp only [shadePixel, Bool.false_or] at hfl ⊢
      by_cases hdec : chanGet values b = shadeVal verb q initial values b
      · rw [decide_eq_false (not_not_intro hdec)] at hfl ⊢
        have heq : chanSet values b (shadeVal verb q initial values b) =
            values := chanSet_of_get_eq _ _ _ hdec
        rw [heq] at hfl ⊢
        exact ih values (List.nodup_cons.mp hnd).2
          (fun x hx => hlt x (List.mem_cons_of_mem b hx)) hfl
      · intro heq
        have hb3 := hlt b (List.mem_cons_self b bs)
        have hnotin : b ∉ bs := (List.nodup_cons.mp hnd).1
        have hget : chanGet ((shadePixel verb q initial bs
            (chanSet values b (shadeVal verb q initial values b))
            (decide (chanGet values b ≠ shadeVal verb q initial values b))).1)
              b = shadeVal verb q initial values b := by
          rw [shadePixel_untouched verb q initial bs _ _ b hnotin]
          exact chanGet_chanSet_self values b hb3 _
        rw [heq] at hget
        exact hdec hget

theorem shadePixel_iff (verb : String) (q : Option ℤ) (initial : RGB)
    (bs : List ℕ) (values : RGB) (hnd : bs.Nodup) (hlt : ∀ b ∈ bs, b < 3) :
    ((shadePixel verb q initial bs values false).2 = true ↔
      (shadePixel verb q initial bs values false).1 ≠ values) := by
  constructor
  · exact shadePixel_changed verb q initial bs values hnd hlt
  · intro hne
    by_contra hfl
    exact hne (shadePixel_false_eq verb q initial bs values false
      (by revert hfl; cases (shadePixel verb q initial bs values false).2 <;>
        simp)).1

theorem shadeWrite_flag_true (verb : String) (q : Option ℤ) (initial : RGB)
    (indexes : List ℕ) : ∀ (ps : List ℤ) (pixels : List RGB),
    (shadeWrite verb q initial indexes ps pixels true).2 = true := by
  intro ps
  induction ps with
  | nil => intro pixels; rfl
  | cons p ps ih =>
      intro pixels
      simp only [shadeWrite]
      split_ifs with h
      · exact ih _
      · exact ih _

theorem shadeWrite_false_eq (verb : String) (q : Option ℤ) (initial : RGB)
    (indexes : List ℕ) : ∀ (ps : List ℤ) pixels ch,
    (shadeWrite verb q initial indexes ps pixels ch).2 = false →
    (shadeWrite verb q initial indexes ps pixels ch).1 = pixels ∧
      ch = false := by
  intro ps
  induction ps with
  | nil => intro pixels ch h; exact ⟨rfl, h⟩
  | cons p ps ih =>
      intro pixels ch h
      simp only [shadeWrite] at h ⊢
      split_ifs at h ⊢ with hcur
      · rw [shadeWrite_flag_true] at h
        cases h
      · exact ih _ _ h

theorem shadeWrite_untouched (verb : String) (q : Option ℤ) (initial : RGB)
    (indexes : List ℕ) : ∀ (ps : List ℤ) pixels ch (i : ℤ),
    0 ≤ i → (∀ p ∈ ps, 0 ≤ p) → i ∉ ps →
    pixGet ((shadeWrite verb q initial indexes ps pixels ch).1) i =
      pixGet pixels i := by
  intro ps
  induction ps with
  | nil => intro pixels ch i _ _ _; rfl
  | cons p ps ih =>
      intro pixels ch i hi hpos hnotin
      simp only [shadeWrite]
      split_ifs with hcur
      · rw [ih _ _ i hi (fun x hx => hpos x (List.mem_cons_of_mem p hx))
          (fun hx => hnotin (List.mem_cons_of_mem p hx))]
        exact pixGet_pixSet_ne pixels p i _ (hpos p (List.mem_cons_self p ps))
          hi (fun hx => hnotin (hx ▸ List.mem_cons_self p ps))
      · exact ih _ _ i hi (fun x hx => hpos x (List.mem_cons_of_mem p hx))
          (fun hx => hnotin (List.mem_cons_of_mem p hx))

theorem shadeWrite_changed (verb : String) (q : Option ℤ) (initial : RGB)
    (indexes : List ℕ) (hnd : indexes.Nodup) (hlt : ∀ b ∈ indexes, b < 3) :
    ∀ (ps : List ℤ) pixels,
    (∀ p ∈ ps, 0 ≤ p ∧ p.toNat < pixels.length) → ps.Nodup →
    (shadeWrite verb q initial indexes ps pixels false).2 = true →
    (shadeWrite verb q initial indexes ps pixels false).1 ≠ pixels := by
  intro ps
  induction ps with
  | nil => intro pixels _ _ h; cases h
  | cons p ps ih =>
      intro pixels hval hnd' hfl
      simp only [shadeWrite] at hfl ⊢
      split_ifs at hfl ⊢ with hcur
      · intro heq
        have hp := hval p (List.mem_cons_self p ps)
        have hnotin : p ∉ ps := (List.nodup_cons.mp hnd').1
        have hqp : pixGet ((shadeWrite verb q initial indexes ps
            (pixSet pixels p (shadePixel verb q initial indexes
              (pixGet pixels p) false).1) true).1) p =
            (shadePixel verb q initial indexes (pixGet pixels p) false).1 := by
          rw [shadeWrite_untouched verb q initial indexes ps _ true p hp.1
            (fun x hx => (hval x (List.mem_cons_of_mem p hx)).1) hnotin]
          exact pixGet_pixSet_self _ p _ hp.2
        rw [heq] at hqp
        exact (shadePixel_iff verb q initial indexes (pixGet pixels p) hnd
          hlt).mp hcur hqp.symm
      · exact ih pixels (fun x hx => hval x (List.mem_cons_of_mem p hx))
          (List.nodup_cons.mp hnd').2 hfl

theorem bufferWrite_iff (vs : List ℤ) (pixels : List RGB)
    (hc : canonicalBuf pixels = true)
    (hlen : (vs.length : ℤ) ≤ (pixels.length : ℤ)) :
    ((bufferWrite vs 0 pixels false).2 = true ↔
      (bufferWrite vs 0 pixels false).1 ≠ pixels) := by
  constructor
  · exact bufferWrite_changed vs 0 pixels hc le_rfl (by omega)
  · intro hne
    by_contra hfl
    exact hne (bufferWrite_false_eq vs 0 pixels false
      (by revert hfl; cases (bufferWrite vs 0 pixels false).2 <;> simp)).1

end Changer

theorem prange_valid (st : ChangerState) (hs : NeoCtl.selValid st = true) :
    ∀ p ∈ prange st, 0 ≤ p ∧ p.toNat < st.pixels.length := by
  intro p hp
  unfold NeoCtl.selValid at hs
  unfold prange at hp
  cases hsel : st.selected_pixel with
  | none =>
      rw [hsel] at hp
      obtain ⟨i, hi, rfl⟩ := List.mem_map.mp hp
      have hir := List.mem_range.mp hi
      exact ⟨Int.ofNat_nonneg i, by simpa using hir⟩
  | some i =>
      rw [hsel] at hp hs
      simp only [List.mem_singleton] at hp
      subst hp
      exact of_decide_eq_true hs

theorem prange_nodup (st : ChangerState) : (prange st).Nodup := by
  unfold prange
  cases st.selected_pixel with
  | none => exact (List.nodup_range _).map fun a b h => Int.ofNat.inj h
  | some i => exact List.nodup_singleton i

theorem colorValue_range (verb : String) (value : PyColor)
    (st : ChangerState) (v : ℤ) (h : Changer.colorValue verb value st = .ok v) :
    0 ≤ v ∧ v < 16777216 := by
  unfold Changer.colorValue at h
  split_ifs at h with h1 h2
  · simp only [Except.ok.injEq] at h
    subst h
    omega
  · match value with
    | .int i =>
        replace h : (match absindex i (st.pixels.length : ℤ) with
          | Except.error e => (Except.error e : Except PyErr ℤ)
          | Except.ok idx =>
              Except.ok (as_int (.tup (pixGet st.pixels idx)))) =
            Except.ok v := h
        cases habs : absindex i (st.pixels.length : ℤ) with
        | error e => rw [habs] at h; cases h
        | ok idx =>
            rw [habs] at h
            simp only [Except.ok.injEq] at h
            subst h
            exact as_int_canonical_range _
    | .tup t =>
        replace h : (Except.error PyErr.typeError : Except PyErr ℤ) =
          Except.ok v := h
        cases h

theorem shade_flush_iff (indexes : List ℕ) (hnd : indexes.Nodup)
    (hlt : ∀ b ∈ indexes, b < 3) (verb : String) (quantity : Option ℤ)
    (st : ChangerState) (hs : NeoCtl.selValid st = true) :
    ((Changer.shade indexes verb quantity st).2 = true ↔
      (Changer.shade indexes verb quantity st).1.pixels ≠ st.pixels) := by
  unfold Changer.shade
  constructor
  · exact Changer.shadeWrite_changed verb _ _ indexes hnd hlt (prange st)
      st.pixels (prange_valid st hs) (prange_nodup st)
  · intro hne
    by_contra hfl
    refine hne (Changer.shadeWrite_false_eq verb _ _ indexes (prange st)
      st.pixels false ?_).1
    revert hfl
    cases (Changer.shadeWrite verb _ _ indexes (prange st) st.pixels false).2 <;>
      simp

end Controller

/-- C7 counterexample: with hue 5 selected, the generic color write
`color('set', 7)` succeeds, repaints the pixel, and leaves
`selected_hue` at 5 instead of clearing it. -/
theorem color_keeps_hue_counterexample :
    Controller.Changer.color "set" (.int 7)
        ⟨[(1, 2, 3)], 0, none, some 5⟩ =
      .ok (⟨[(0, 0, 7)], 0, none, some 5⟩, true) ∧
    some (5 : ℤ) ≠ (none : Option ℤ) := by
  constructor
  · decide
  · decide

/-- C7 amended: after every Changer operation, setting selected_pixel to
a new value always clears selected_hue, and every channel write (red,
green, blue, white) clears selected_hue; the generic color write,
however, leaves selected_hue unchanged. -/
theorem selected_hue_invariant (st : Controller.ChangerState) :
    (∀ verb q st' fl,
      Controller.Changer.pixel verb q st = .ok (st', fl) →
        st'.selected_hue = none)
    ∧ (∀ verb q, (Controller.Changer.red verb q st).1.selected_hue = none)
    ∧ (∀ verb q, (Controller.Changer.green verb q st).1.selected_hue = none)
    ∧ (∀ verb q, (Controller.Changer.blue verb q st).1.selected_hue = none)
    ∧ (∀ verb q, (Controller.Changer.white verb q st).1.selected_hue = none)
    ∧ (∀ verb v st' fl,
      Controller.Changer.color verb v st = .ok (st', fl) →
        st'.selected_hue = st.selected_hue) := by
  refine ⟨?_, fun _ _ => rfl, fun _ _ => rfl, fun _ _ => rfl, fun _ _ => rfl,
    ?_⟩
  · intro verb q st' fl h
    unfold Controller.Changer.pixel at h
    cases hres : Controller.resolve_index_change verb q st.selected_pixel
        (st.pixels.length : ℤ) true with
    | error e => rw [hres] at h; cases h
    | ok value =>
        rw [hres] at h
        simp only [Except.ok.injEq, Prod.mk.injEq] at h
        rw [← h.1]
  · intro verb v st' fl h
    unfold Controller.Changer.color at h
    cases hres : Controller.Changer.colorValue verb v st with
    | error e => rw [hres] at h; cases h
    | ok value =>
        rw [hres] at h
        simp only [Except.ok.injEq, Prod.mk.injEq] at h
        rw [← h.1]

/-- Witness for C7 amended: pixel set 0 from a state with hue 5 selected
leaves the selection with hue cleared. -/
theorem selected_hue_invariant_witness :
    ((⟨[(1, 2, 3)], 0, some 0, none⟩ :
      Controller.ChangerState).selected_hue = none) ∧
    ((Controller.Changer.red "set" (some 9)
      ⟨[(1, 2, 3)], 0, none, some 5⟩).1.selected_hue = none) :=
  ⟨(selected_hue_invariant ⟨[(1, 2, 3)], 0, none, some 5⟩).1
      "set" (some 0) ⟨[(1, 2, 3)], 0, some 0, none⟩ false (by decide),
    (selected_hue_invariant ⟨[(1, 2, 3)], 0, none, some 5⟩).2.1
      "set" (some 9)⟩

/-- C8 counterexample: `hue('set', 3)` on a strip already showing wheel
color 3 writes identical pixel values and still issues a flush — the
flush in `Changer.hue` is unconditional, not gated on the change flag. -/
theorem hue_always_flush_counterexample :
    Controller.Changer.hue "set" (some 3)
        ⟨[(246, 9, 0)], 0, none, some 3⟩ =
      .ok (⟨[(246, 9, 0)], 0, none, some 3⟩, true) := by
  decide

/-- C8 amended: for every Changer operation in the ok case, the flush is
issued iff the operation changed the state: buffer and color flush iff
some pixel value changed, brightness flushes iff the brightness fraction
changed (and touches no pixel), each channel write (red, green, blue,
white) flushes iff some pixel value changed, and pixel never flushes —
but hue always flushes, even when it leaves every pixel value and the
brightness unchanged. -/
theorem changer_flush_iff (st : Controller.ChangerState)
    (hc : canonicalBuf st.pixels = true) (hs : selValid st = true) :
    (∀ verb buf st' fl,
      Controller.Changer.buffer verb buf st = .ok (st', fl) →
        (fl = true ↔ st'.pixels ≠ st.pixels))
    ∧ (∀ verb v st' fl,
      Controller.Changer.color verb v st = .ok (st', fl) →
        (fl = true ↔ st'.pixels ≠ st.pixels))
    ∧ (∀ verb q st' fl,
      Controller.Changer.brightness verb q st = .ok (st', fl) →
        ((fl = true ↔ st'.brightness ≠ st.brightness) ∧
          st'.pixels = st.pixels))
    ∧ (∀ verb q, ((Controller.Changer.red verb q st).2 = true ↔
        (Controller.Changer.red verb q st).1.pixels ≠ st.pixels))
    ∧ (∀ verb q, ((Controller.Changer.green verb q st).2 = true ↔
        (Controller.Changer.green verb q st).1.pixels ≠ st.pixels))
    ∧ (∀ verb q, ((Controller.Changer.blue verb q st).2 = true ↔
        (Controller.Changer.blue verb q st).1.pixels ≠ st.pixels))
    ∧ (∀ verb q, ((Controller.Changer.white verb q st).2 = true ↔
        (Controller.Changer.white verb q st).1.pixels ≠ st.pixels))
    ∧ (∀ verb q st' fl,
      Controller.Changer.pixel verb q st = .ok (st', fl) →
        fl = false ∧ st'.pixels = st.pixels ∧
          st'.brightness = st.brightness)
    ∧ (∀ verb q st' fl,
      Controller.Changer.hue verb q st = .ok (st', fl) → fl = true) := by
  refine ⟨?_, ?_, ?_, ?_, ?_, ?_, ?_, ?_, ?_⟩
  · intro verb buf st' fl h
    unfold Controller.Changer.buffer at h
    split_ifs at h with hv
    simp only [Except.ok.injEq, Prod.mk.injEq] at h
    rw [← h.1, ← h.2]
    exact Controller.Changer.bufferWrite_iff (buf.take st.pixels.length)
      st.pixels hc (by rw [List.length_take]; omega)
  · intro verb v st' fl h
    unfold Controller.Changer.color at h
    cases hres : Controller.Changer.colorValue verb v st with
    | error e => rw [hres] at h; cases h
    | ok value =>
        rw [hres] at h
        simp only [Except.ok.injEq, Prod.mk.injEq] at h
        rw [← h.1, ← h.2]
        have hr := Controller.colorValue_range verb v st value hres
        exact Controller.Changer.colorWrite_iff value hr.1 hr.2
          (Controller.prange st) st.pixels hc
          (Controller.prange_valid st hs) (Controller.prange_nodup st)
  · intro verb q st' fl h
    unfold Controller.Changer.brightness at h
    cases hres : Controller.Changer.brightnessValue verb q st with
    | error e => rw [hres] at h; cases h
    | ok value =>
        rw [hres] at h
        simp only [ne_eq] at h
        split_ifs at h with hbr
        · simp only [Except.ok.injEq, Prod.mk.injEq] at h
          rw [← h.1, ← h.2]
          exact ⟨by simp [hbr], rfl⟩
        · simp only [Except.ok.injEq, Prod.mk.injEq] at h
          rw [← h.1, ← h.2]
          simp_all
  · exact fun verb q => Controller.shade_flush_iff [0] (by decide)
      (by decide) verb _ st hs
  · exact fun verb q => Controller.shade_flush_iff [1] (by decide)
      (by decide) verb _ st hs
  · exact fun verb q => Controller.shade_flush_iff [2] (by decide)
      (by decide) verb _ st hs
  · exact fun verb q => Controller.shade_flush_iff [0, 1, 2] (by decide)
      (by decide) verb _ st hs
  · intro verb q st' fl h
    unfold Controller.Changer.pixel at h
    cases hres : Controller.resolve_index_change verb q st.selected_pixel
        (st.pixels.length : ℤ) true with
    | error e => rw [hres] at h; cases h
    | ok value =>
        rw [hres] at h
        simp only [Except.ok.injEq, Prod.mk.injEq] at h
        exact ⟨h.2.symm, by rw [← h.1], by rw [← h.1]⟩
  · intro verb q st' fl h
    unfold Controller.Changer.hue at h
    cases hcur : Controller.Changer.hueCurrent q st with
    | error e => rw [hcur] at h; cases h
    | ok current =>
        rw [hcur] at h
        replace h : (match Controller.resolve_index_change verb q current
            256 true with
          | Except.error e =>
              (Except.error e : Except PyErr (Controller.ChangerState × Bool))
          | Except.ok value =>
              Except.ok ({ st with
                pixels := (Controller.prange st).foldl
                  (fun acc p => Controller.pixSet acc p
                    (Controller.as_tuple
                      (.int (Controller.colorwheel (value.getD 0)))))
                  st.pixels,
                selected_hue := value }, true)) = Except.ok (st', fl) := h
        cases hres : Controller.resolve_index_change verb q current 256
            true with
        | error e => rw [hres] at h; cases h
        | ok value =>
            rw [hres] at h
            simp only [Except.ok.injEq, Prod.mk.injEq] at h
            exact h.2.symm

namespace Controller

/-- The in-flight animation object of src/controller/classes.py
(class Animation): the tick interval, the `at` timestamp of the next due
tick, and the lazy frame producer `it`, modelled as the list of frames it
has yet to yield (the frame position is where this list starts). -/
structure Animation where
  interval : ℤ
  at_ : Option ℤ
  it : List (List RGB)
deriving DecidableEq, Repr

/-- The Animator state: the clamped `_speed` index and the optional
in-flight animation. -/
structure AnimatorState where
  speed : ℤ
  anim : Option Animation
deriving DecidableEq, Repr

/-- Embeds the `Animator.speed` setter of src/controller/classes.py
(lines 232-236): clamp the value into [0, len(speeds) - 1] and, when an
animation is in flight, update its interval in place — the animation
object itself (its frames and due time) is untouched. -/
def speed_set (st : AnimatorState) (value : ℤ) : AnimatorState :=
  let v := max 0 (min value ((Settings.speeds.length : ℤ) - 1))
  { speed := v,
    anim := st.anim.map fun a =>
      { a with interval := Settings.speeds.getD v.toNat 0 } }

/-- Embeds `Animator.speed_change` of src/controller/classes.py (lines
248-258): with no quantity, reset to the middle speed; otherwise negate
the quantity and resolve relative to the current speed with wrap
disabled (so plus decreases the index toward faster intervals).  A None
resolution (verb clear) would crash the setter with TypeError. -/
def speed_change (st : AnimatorState) (verb : String)
    (quantity : Option ℤ) : Except PyErr AnimatorState :=
  match quantity with
  | none => .ok (speed_set st ((Settings.speeds.length : ℤ) / 2))
  | some q =>
      match resolve_index_change verb (some (-q)) (some st.speed)
          (Settings.speeds.length : ℤ) false with
      | .error e => .error e
      | .ok none => .error .typeError
      | .ok (some v) => .ok (speed_set st v)

/-- The persistent-slot state a `BufStore` instance sees: the configured
slot count, whether the mount-check succeeds, and each slot's file as its
list of stripped lines (`some` per parseable `int(line)` value, `none`
for a line `int()` rejects; blank lines are dropped on read). -/
structure BufStoreState where
  size : ℕ
  mounted : Bool
  slots : ℕ → Option (List (Option ℤ))

/-- The values `_reader`'s `int(line)` parse accepts, in file order. -/
def validValues (file : List (Option ℤ)) : List ℤ := file.filterMap id

/-- Embeds the yield sequence of `BufStore._reader` of
src/controller/classes.py (lines 381-410): yield the parsed values in
order; at end of file, seek back to the start and continue (unless
nothing was ever yielded), stopping after `stop` yields.  `vs` is the
file's parsed values, the second argument the read cursor, the third the
remaining yield budget. -/
def readerYields (vs : List ℤ) : List ℤ → ℕ → List ℤ
  | _, 0 => []
  | v :: rest, n + 1 => v :: readerYields vs rest n
  | [], n + 1 =>
      match vs with
      | [] => []
      | v :: rest => v :: readerYields vs rest n

namespace BufStore

/-- Embeds `BufStore.has` of src/controller/classes.py (lines 362-375):
the index is in range, the mount check passes, and a one-value trial read
succeeds (the file exists and holds at least one parseable value). -/
def has (st : BufStoreState) (index : ℤ) : Bool :=
  decide (0 ≤ index ∧ index < (st.size : ℤ)) && st.mounted &&
    (match st.slots index.toNat with
     | none => false
     | some f => !(validValues f).isEmpty)

/-- Embeds `BufStore.read` of src/controller/classes.py (lines 377-379):
a reader over the slot when the strip is non-empty and `has` holds, else
None. -/
def read (st : BufStoreState) (pixels_n : ℕ) (index : ℤ) :
    Option (List ℤ) :=
  if 0 < pixels_n ∧ has st index = true then
    match st.slots index.toNat with
    | some f => some (readerYields (validValues f) (validValues f) pixels_n)
    | none => none
  else none

/-- The diff-write loop in `BufStore.restore`: once any pixel differs,
every following pixel is (re)written; the flush flag is the sticky
change bit. -/
def restoreWrite : List ℤ → ℤ → List RGB → Bool → List RGB × Bool
  | [], _, pixels, ch => (pixels, ch)
  | v :: vs, p, pixels, ch =>
      if ch || decide (pixGet pixels p ≠ as_tuple (.int v)) then
        restoreWrite vs (p + 1) (pixSet pixels p (as_tuple (.int v))) true
      else restoreWrite vs (p + 1) pixels ch

/-- Embeds `BufStore.restore` of src/controller/classes.py (lines
317-331): an unreadable slot fills the strip with the configured
fallback color, flushes, and reports failure; a readable one diff-writes
the read values (the reader already padded cyclically up to the strip
length), flushes iff something changed, and reports success.  The result
is (new buffer, flushed, returned bool). -/
def restore (st : BufStoreState) (pixels : List RGB) (index : ℤ) :
    List RGB × Bool × Bool :=
  match read st pixels.length index with
  | none =>
      (pixels.map fun _ => as_tuple (.int Settings.initial_color), true,
        false)
  | some values =>
      let res := restoreWrite values 0 pixels false
      (res.1, res.2, true)

end BufStore

namespace Commander

/-- Embeds the de-duplication tail of `Commander.read` of
src/controller/classes.py (lines 48-66), from the point where the line
has been NUL-stripped, UTF-8 decoded and whitespace-stripped: an empty
line yields nothing; a line whose first character repeats the stored
last id is discarded without touching it; otherwise the id character is
stored first and the remainder — possibly empty, hence `or None` —
becomes the command.  The result is (new last id, command). -/
def read (lastid : Option Char) (cmdstr : List Char) :
    Option Char × Option (List Char) :=
  match cmdstr with
  | [] => (lastid, none)
  | c :: rest =>
      if some c = lastid then (lastid, none)
      else (some c, if rest = [] then none else some rest)

end Commander

end Controller

/-- Witness for C8 amended at a one-pixel black strip: the red channel
write with plus 5 flushes and changes the buffer. -/
theorem changer_flush_iff_witness :
    (canonicalBuf [((0 : ℤ), (0 : ℤ), (0 : ℤ))] = true) ∧
    (selValid ⟨[(0, 0, 0)], 0, none, none⟩ = true) ∧
    ((Controller.Changer.red "plus" (some 5)
        ⟨[(0, 0, 0)], 0, none, none⟩).2 = true ↔
      (Controller.Changer.red "plus" (some 5)
        ⟨[(0, 0, 0)], 0, none, none⟩).1.pixels ≠ [(0, 0, 0)]) :=
  ⟨by decide, by decide,
    (changer_flush_iff ⟨[(0, 0, 0)], 0, none, none⟩ (by decide)
      (by decide)).2.2.2.1 "plus" (some 5)⟩

theorem speeds_length : Controller.Settings.speeds.length = 64 := by
  unfold Controller.Settings.speeds
  rw [List.length_map, List.length_range]

/-- C9: every speed assignment and every successful speed_change leaves
the speed index clamped inside [0, len(speeds) - 1] and never wraps (a
relative plus q lands on clamp(speed - q), saturating at the bounds);
changing the speed while an animation is in flight updates only its
interval: the animation stays present with its frame producer and due
time untouched. -/
theorem animator_speed_clamped (st : Controller.AnimatorState) :
    (∀ value : ℤ,
      (0 ≤ (Controller.speed_set st value).speed ∧
        (Controller.speed_set st value).speed ≤
          (Controller.Settings.speeds.length : ℤ) - 1) ∧
      (Controller.speed_set st value).anim.map Controller.Animation.it =
        st.anim.map Controller.Animation.it ∧
      (Controller.speed_set st value).anim.map Controller.Animation.at_ =
        st.anim.map Controller.Animation.at_ ∧
      ∀ a, st.anim = some a → (Controller.speed_set st value).anim =
        some ⟨Controller.Settings.speeds.getD
          (Controller.speed_set st value).speed.toNat 0, a.at_, a.it⟩)
    ∧ (∀ verb q st', Controller.speed_change st verb q = .ok st' →
        (0 ≤ st'.speed ∧
          st'.speed ≤ (Controller.Settings.speeds.length : ℤ) - 1) ∧
        st'.anim.map Controller.Animation.it =
          st.anim.map Controller.Animation.it ∧
        st'.anim.map Controller.Animation.at_ =
          st.anim.map Controller.Animation.at_)
    ∧ (∀ (q : ℤ) st',
        Controller.speed_change st "plus" (some q) = .ok st' →
        st'.speed = max 0 (min (st.speed - q)
          ((Controller.Settings.speeds.length : ℤ) - 1))) := by
  have hset : ∀ value : ℤ,
      (0 ≤ (Controller.speed_set st value).speed ∧
        (Controller.speed_set st value).speed ≤
          (Controller.Settings.speeds.length : ℤ) - 1) ∧
      (Controller.speed_set st value).anim.map Controller.Animation.it =
        st.anim.map Controller.Animation.it ∧
      (Controller.speed_set st value).anim.map Controller.Animation.at_ =
        st.anim.map Controller.Animation.at_ ∧
      ∀ a, st.anim = some a → (Controller.speed_set st value).anim =
        some ⟨Controller.Settings.speeds.getD
          (Controller.speed_set st value).speed.toNat 0, a.at_, a.it⟩ := by
    intro value
    refine ⟨⟨?_, ?_⟩, ?_, ?_, ?_⟩
    · show 0 ≤ max 0 (min value ((Controller.Settings.speeds.length : ℤ) - 1))
      omega
    · show max 0 (min value ((Controller.Settings.speeds.length : ℤ) - 1)) ≤ _
      rw [speeds_length]
      norm_num
    · cases hanim : st.anim <;> simp [Controller.speed_set, hanim]
    · cases hanim : st.anim <;> simp [Controller.speed_set, hanim]
    · intro a ha
      unfold Controller.speed_set
      rw [ha]
      rfl
  refine ⟨hset, ?_, ?_⟩
  · intro verb q st' h
    unfold Controller.speed_change at h
    match q with
    | none =>
        simp only [Except.ok.injEq] at h
        subst h
        exact ⟨(hset _).1, (hset _).2.1, (hset _).2.2.1⟩
    | some qq =>
        replace h : (match Controller.resolve_index_change verb (some (-qq))
            (some st.speed) (Controller.Settings.speeds.length : ℤ)
            false with
          | Except.error e =>
              (Except.error e : Except PyErr Controller.AnimatorState)
          | Except.ok none => Except.error PyErr.typeError
          | Except.ok (some v) =>
              Except.ok (Controller.speed_set st v)) = Except.ok st' := h
        cases hres : Controller.resolve_index_change verb (some (-qq))
            (some st.speed) (Controller.Settings.speeds.length : ℤ)
            false with
        | error e => rw [hres] at h; cases h
        | ok ov =>
            rw [hres] at h
            cases ov with
            | none => cases h
            | some v =>
                simp only [Except.ok.injEq] at h
                subst h
                exact ⟨(hset _).1, (hset _).2.1, (hset _).2.2.1⟩
  · intro q st' h
    unfold Controller.speed_change at h
    replace h : (match Controller.resolve_index_change "plus" (some (-q))
        (some st.speed) (Controller.Settings.speeds.length : ℤ) false with
      | Except.error e =>
          (Except.error e : Except PyErr Controller.AnimatorState)
      | Except.ok none => Except.error PyErr.typeError
      | Except.ok (some v) =>
          Except.ok (Controller.speed_set st v)) = Except.ok st' := h
    have hres : Controller.resolve_index_change "plus" (some (-q))
        (some st.speed) (Controller.Settings.speeds.length : ℤ) false =
        .ok (some (max 0 (min (st.speed + -q)
          ((Controller.Settings.speeds.length : ℤ) - 1)))) := by
      unfold Controller.resolve_index_change
      simp
    rw [hres] at h
    simp only [Except.ok.injEq] at h
    subst h
    show max 0 (min (max 0 (min (st.speed + -q) _)) _) = _
    rw [speeds_length]
    omega

/-- Witness for C9: speed plus 2 from speed 5 with a running animation
lands on 3 and retargets the interval to 8 ms without touching the
animation's frames or due time. -/
theorem animator_speed_clamped_witness :
    (Controller.speed_change ⟨5, some ⟨10, some 100, [[(1, 2, 3)]]⟩⟩
      "plus" (some 2) = .ok ⟨3, some ⟨8, some 100, [[(1, 2, 3)]]⟩⟩) ∧
    ((0 ≤ (⟨3, some ⟨8, some 100, [[(1, 2, 3)]]⟩⟩ :
        Controller.AnimatorState).speed ∧
      (⟨3, some ⟨8, some 100, [[(1, 2, 3)]]⟩⟩ :
        Controller.AnimatorState).speed ≤
        (Controller.Settings.speeds.length : ℤ) - 1) ∧
    (⟨3, some ⟨8, some 100, [[(1, 2, 3)]]⟩⟩ :
        Controller.AnimatorState).anim.map Controller.Animation.it =
      (some (⟨10, some 100, [[(1, 2, 3)]]⟩ : Controller.Animation)).map
        Controller.Animation.it ∧
    (⟨3, some ⟨8, some 100, [[(1, 2, 3)]]⟩⟩ :
        Controller.AnimatorState).anim.map Controller.Animation.at_ =
      (some (⟨10, some 100, [[(1, 2, 3)]]⟩ : Controller.Animation)).map
        Controller.Animation.at_) :=
  ⟨by decide,
    (animator_speed_clamped ⟨5, some ⟨10, some 100, [[(1, 2, 3)]]⟩⟩).2.1
      "plus" (some 2) ⟨3, some ⟨8, some 100, [[(1, 2, 3)]]⟩⟩ (by decide)⟩

theorem readerYields_length (vs : List ℤ) (hvs : vs ≠ []) :
    ∀ (n : ℕ) (cursor : List ℤ),
    (Controller.readerYields vs cursor n).length = n := by
  intro n
  induction n with
  | zero => intro cursor; cases cursor <;> rfl
  | succ n ih =>
      intro cursor
      cases cursor with
      | cons v rest =>
          simp only [Controller.readerYields, List.length_cons, ih]
      | nil =>
          cases vs with
          | nil => exact absurd rfl hvs
          | cons v rest =>
              simp only [Controller.readerYields, List.length_cons, ih]

theorem readerYields_getElem (vs : List ℤ) (hvs : vs ≠ []) :
    ∀ (n k i : ℕ), k ≤ vs.length → i < n →
    (Controller.readerYields vs (vs.drop k) n)[i]? =
      some (vs.getD ((k + i) % vs.length) 0) := by
  intro n
  induction n with
  | zero => intro k i _ hi; omega
  | succ n ih =>
      intro k i hk hi
      by_cases hklen : k < vs.length
      · rw [List.drop_eq_getElem_cons hklen]
        cases i with
        | zero =>
            simp only [Controller.readerYields, List.getElem?_cons_zero]
            congr 1
            rw [Nat.add_zero, Nat.mod_eq_of_lt hklen,
              List.getD_eq_getElem?_getD, List.getElem?_eq_getElem hklen]
            rfl
        | succ i =>
            simp only [Controller.readerYields, List.getElem?_cons_succ]
            have hstep := ih (k + 1) i (by omega) (by omega)
            rw [hstep, show k + 1 + i = k + (i + 1) from by omega]
      · have hkeq : k = vs.length := by omega
        subst hkeq
        rw [List.drop_length]
        cases vs with
        | nil => exact absurd rfl hvs
        | cons v rest =>
            cases i with
            | zero =>
                simp only [Controller.readerYields, List.getElem?_cons_zero]
                congr 1
                have hmod : ((v :: rest).length + 0) % (v :: rest).length =
                    0 := by
                  simp
                rw [hmod]
                rfl
            | succ i =>
                simp only [Controller.readerYields, List.getElem?_cons_succ]
                have hstep := ih 1 i (by simp only [List.length_cons]; omega)
                  (by omega)
                simp only [List.drop_succ_cons, List.drop_zero] at hstep
                rw [hstep]
                simp only [List.length_cons]
                rw [Nat.add_mod_left, show 1 + i = i + 1 from by omega]

theorem restoreWrite_length (values : List ℤ) :
    ∀ (p : ℤ) pixels ch,
    (Controller.BufStore.restoreWrite values p pixels ch).1.length =
      pixels.length := by
  induction values with
  | nil => intro p pixels ch; rfl
  | cons v vs ih =>
      intro p pixels ch
      simp only [Controller.BufStore.restoreWrite]
      split_ifs with h
      · rw [ih]
        exact pixSet_length pixels p _
      · exact ih _ _ _

theorem restoreWrite_below (values : List ℤ) :
    ∀ (p : ℤ) pixels ch (q : ℤ), 0 ≤ q → q < p →
    Controller.pixGet
      ((Controller.BufStore.restoreWrite values p pixels ch).1) q =
      Controller.pixGet pixels q := by
  induction values with
  | nil => intro p pixels ch q _ _; rfl
  | cons v vs ih =>
      intro p pixels ch q hq hqp
      simp only [Controller.BufStore.restoreWrite]
      split_ifs with h
      · rw [ih (p + 1) _ true q hq (by omega)]
        exact pixGet_pixSet_ne pixels p q _ (by omega) hq (by omega)
      · exact ih (p + 1) _ ch q hq (by omega)

theorem restoreWrite_values (values : List ℤ) :
    ∀ (p : ℤ) pixels ch, 0 ≤ p →
    p + values.length ≤ (pixels.length : ℤ) →
    ∀ j : ℕ, j < values.length →
    Controller.pixGet
      ((Controller.BufStore.restoreWrite values p pixels ch).1) (p + j) =
      Controller.as_tuple (.int (values.getD j 0)) := by
  induction values with
  | nil => intro p pixels ch _ _ j hj; simp at hj
  | cons v vs ih =>
      intro p pixels ch hp hlen j hj
      have hlen' : p + ((vs.length : ℤ) + 1) ≤ (pixels.length : ℤ) := by
        simp only [List.length_cons] at hlen
        push_cast at hlen
        omega
      have hj' : j < vs.length + 1 := by simpa using hj
      have hplt : p.toNat < pixels.length := by omega
      simp only [Controller.BufStore.restoreWrite]
      split_ifs with hwr
      · cases j with
        | zero =>
            rw [Nat.cast_zero, add_zero,
              restoreWrite_below vs (p + 1) _ true p hp (by omega)]
            exact pixGet_pixSet_self pixels p _ hplt
        | succ j =>
            have hcast : p + ((j + 1 : ℕ) : ℤ) = (p + 1) + (j : ℤ) := by
              push_cast
              ring
            rw [hcast, List.getD_cons_succ]
            refine ih (p + 1) _ true (by omega) ?_ j (by omega)
            rw [pixSet_length]
            omega
      · simp only [Bool.or_eq_true, decide_eq_true_eq, not_or, not_not]
          at hwr
        cases j with
        | zero =>
            rw [Nat.cast_zero, add_zero,
              restoreWrite_below vs (p + 1) _ ch p hp (by omega)]
            exact hwr.2
        | succ j =>
            have hcast : p + ((j + 1 : ℕ) : ℤ) = (p + 1) + (j : ℤ) := by
              push_cast
              ring
            rw [hcast, List.getD_cons_succ]
            exact ih (p + 1) _ ch (by omega) (by omega) j (by omega)

/-- C6: restore on a slot that cannot be read (absent, unmounted, out of
range, or holding no parseable value) fills the whole strip with the
configured fallback color, flushes, and returns False; restore on a
readable slot returns True and leaves the buffer holding exactly the
strip-length prefix of the stored values repeated cyclically (the
explicit padding policy for records shorter than the strip). -/
theorem bufstore_restore_spec (st : Controller.BufStoreState)
    (pixels : List RGB) (index : ℤ) (hn : 0 < pixels.length) :
    (Controller.BufStore.read st pixels.length index = none →
      Controller.BufStore.restore st pixels index =
        (List.replicate pixels.length
          (Controller.as_tuple (.int Controller.Settings.initial_color)),
          true, false))
    ∧ (∀ file, st.slots index.toNat = some file →
        Controller.BufStore.has st index = true →
        (Controller.BufStore.restore st pixels index).2.2 = true ∧
        (Controller.BufStore.restore st pixels index).1.length =
          pixels.length ∧
        ∀ i : ℕ, i < pixels.length →
          (Controller.BufStore.restore st pixels index).1.getD i (0, 0, 0) =
            Controller.as_tuple (.int
              ((Controller.validValues file).getD
                (i % (Controller.validValues file).length) 0))) := by
  constructor
  · intro hread
    unfold Controller.BufStore.restore
    rw [hread]
    rw [List.map_const']
  · intro file hfile hhas
    have hvs : Controller.validValues file ≠ [] := by
      unfold Controller.BufStore.has at hhas
      rw [hfile] at hhas
      simp only [Bool.and_eq_true, Bool.not_eq_true'] at hhas
      intro hemp
      rw [hemp] at hhas
      simp at hhas
    have hread : Controller.BufStore.read st pixels.length index =
        some (Controller.readerYields (Controller.validValues file)
          (Controller.validValues file) pixels.length) := by
      unfold Controller.BufStore.read
      rw [if_pos ⟨hn, hhas⟩, hfile]
    have hvlen : (Controller.readerYields (Controller.validValues file)
        (Controller.validValues file) pixels.length).length =
        pixels.length := readerYields_length _ hvs _ _
    unfold Controller.BufStore.restore
    rw [hread]
    refine ⟨rfl, restoreWrite_length _ _ _ _, ?_⟩
    intro i hi
    have hval := restoreWrite_values
      (Controller.readerYields (Controller.validValues file)
        (Controller.validValues file) pixels.length)
      0 pixels false le_rfl (by rw [hvlen]; omega) i (by rw [hvlen]; exact hi)
    rw [zero_add] at hval
    have hpix : Controller.pixGet
        ((Controller.BufStore.restoreWrite
          (Controller.readerYields (Controller.validValues file)
            (Controller.validValues file) pixels.length)
          0 pixels false).1) (i : ℤ) =
        (Controller.BufStore.restoreWrite
          (Controller.readerYields (Controller.validValues file)
            (Controller.validValues file) pixels.length)
          0 pixels false).1.getD i (0, 0, 0) := by
      unfold Controller.pixGet
      rw [Int.toNat_natCast]
    rw [hpix] at hval
    rw [hval]
    congr 1
    have hgd := readerYields_getElem (Controller.validValues file) hvs
      pixels.length 0 i (by omega) hi
    rw [List.drop_zero] at hgd
    rw [List.getD_eq_getElem?_getD, hgd]
    simp

/-- Witness for C6 on a 2-pixel strip and a 3-line slot file whose middle
line is unparseable: restore succeeds and pads from the two stored
values. -/
theorem bufstore_restore_spec_witness :
    (Controller.BufStore.restore
      ⟨6, true, fun i => if i = 0 then some [some 5, none, some 7]
        else none⟩
      [(0, 0, 0), (1, 1, 1)] 0).2.2 = true ∧
    (Controller.BufStore.restore
      ⟨6, true, fun i => if i = 0 then some [some 5, none, some 7]
        else none⟩
      [(0, 0, 0), (1, 1, 1)] 0).1.getD 1 (0, 0, 0) =
      Controller.as_tuple (.int
        ((Controller.validValues [some 5, none, some 7]).getD
          (1 % (Controller.validValues [some 5, none, some 7]).length)
          0)) :=
  ⟨((bufstore_restore_spec
      ⟨6, true, fun i => if i = 0 then some [some 5, none, some 7]
        else none⟩
      [(0, 0, 0), (1, 1, 1)] 0 (by decide)).2
      [some 5, none, some 7] rfl (by decide)).1,
    ((bufstore_restore_spec
      ⟨6, true, fun i => if i = 0 then some [some 5, none, some 7]
        else none⟩
      [(0, 0, 0), (1, 1, 1)] 0 (by decide)).2
      [some 5, none, some 7] rfl (by decide)).2.2 1 (by decide)⟩

/-- C10: the command reader stores the de-duplication id before checking
the body: a line with a fresh id and an empty body yields no command yet
replaces the stored last id, and any subsequent line reusing that id
character is silently discarded even though its body differs. -/
theorem commander_read_dedup (lastid : Option Char) (c : Char)
    (hne : some c ≠ lastid) :
    (Controller.Commander.read lastid [c] = (some c, none))
    ∧ (∀ body : List Char, body ≠ [] →
        Controller.Commander.read (some c) (c :: body) = (some c, none)) := by
  constructor
  · simp [Controller.Commander.read, hne]
  · intro body hb
    simp [Controller.Commander.read]

/-- Witness for C10: id 'a' with an empty body is consumed and stored,
then 'a' followed by a real body is discarded. -/
theorem commander_read_dedup_witness :
    (Controller.Commander.read none ['a'] = (some 'a', none)) ∧
    (Controller.Commander.read (some 'a') ('a' :: ['p', '5']) =
      (some 'a', none)) :=
  ⟨(commander_read_dedup none 'a' (by decide)).1,
    (commander_read_dedup none 'a' (by decide)).2 ['p', '5'] (by decide)⟩

end NeoCtl
